import Mathlib

set_option autoImplicit false

/-!
Shallow embedding of the concurrent acquisition engine of the
yazio-exporter repository, together with proofs about it.

Python dictionaries are embedded as association lists (`List (k × v)`)
with first-match lookup (`dictFind`) and overwrite-or-append assignment
(`dictInsert`), which matches CPython dict semantics (assignment keeps
the original position of an existing key, otherwise appends).

Fallible Python callables are embedded as functions into `Except`:
`Except.error e` models the callable raising exception `e`.

The thread pool in `fetch_concurrent` (src/yazio_exporter/utils.py) is
embedded as a sequential left fold over the submitted items: the
properties proved here (sizes, key sets, per-key lookups) are
insensitive to the completion order of `as_completed`, so any
serialization represents every interleaving for these claims.
-/

namespace YazioExporter

universe u v

variable {α : Type u} {β : Type v} {E : Type v}

/-- Python dict assignment `m[k] = v`: overwrite in place when the key
is present, append otherwise. -/
def dictInsert [DecidableEq α] (m : List (α × β)) (k : α) (v : β) : List (α × β) :=
  if k ∈ m.map Prod.fst then
    m.map (fun p => if p.1 = k then (k, v) else p)
  else
    m ++ [(k, v)]

/-- Python dict lookup `m[k]` (as an `Option`): first binding of `k`. -/
def dictFind [DecidableEq α] (k : α) : List (α × β) → Option β
  | [] => none
  | p :: rest => if p.1 = k then some p.2 else dictFind k rest

theorem dictInsert_of_not_mem [DecidableEq α] {m : List (α × β)} {k : α} (v : β)
    (h : k ∉ m.map Prod.fst) : dictInsert m k v = m ++ [(k, v)] := by
  simp [dictInsert, h]

theorem dictFind_eq_none_of_not_mem [DecidableEq α] {m : List (α × β)} {k : α}
    (h : k ∉ m.map Prod.fst) : dictFind k m = none := by
  induction m with
  | nil => rfl
  | cons p rest ih =>
    simp only [List.map_cons, List.mem_cons] at h
    push_neg at h
    simp [dictFind, Ne.symm h.1, ih h.2]

theorem dictFind_dictInsert_self [DecidableEq α] (m : List (α × β)) (k : α) (v : β) :
    dictFind k (dictInsert m k v) = some v := by
  unfold dictInsert
  by_cases h : k ∈ m.map Prod.fst
  · rw [if_pos h]
    induction m with
    | nil => simp at h
    | cons p rest ih =>
      by_cases hp : p.1 = k
      · simp [dictFind, hp]
      · simp only [List.map_cons, List.mem_cons] at h
        rcases h with h | h
        · exact absurd h.symm hp
        · simp [dictFind, hp, ih h]
  · rw [if_neg h]
    induction m with
    | nil => simp [dictFind]
    | cons p rest ih =>
      simp only [List.map_cons, List.mem_cons] at h
      push_neg at h
      simp [dictFind, Ne.symm h.1, ih h.2]

theorem dictFind_map_replace [DecidableEq α] (m : List (α × β)) {k k' : α} (v : β)
    (h : k' ≠ k) :
    dictFind k' (m.map (fun p => if p.1 = k then (k, v) else p)) = dictFind k' m := by
  induction m with
  | nil => rfl
  | cons p rest ih =>
    by_cases hp : p.1 = k
    · simp [dictFind, hp, Ne.symm h, ih]
    · simp [dictFind, hp, ih]

theorem dictFind_append_single_ne [DecidableEq α] (m : List (α × β)) {k k' : α} (v : β)
    (h : k' ≠ k) : dictFind k' (m ++ [(k, v)]) = dictFind k' m := by
  induction m with
  | nil => simp [dictFind, Ne.symm h]
  | cons p rest ih =>
    by_cases hp : p.1 = k'
    · simp [dictFind, hp]
    · simp [dictFind, hp, ih]

theorem dictFind_dictInsert_ne [DecidableEq α] (m : List (α × β)) {k k' : α} (v : β)
    (h : k' ≠ k) : dictFind k' (dictInsert m k v) = dictFind k' m := by
  unfold dictInsert
  by_cases hm : k ∈ m.map Prod.fst
  · rw [if_pos hm]; exact dictFind_map_replace m v h
  · rw [if_neg hm]; exact dictFind_append_single_ne m v h

/-!
## Task Executor: `fetch_concurrent` (src/yazio_exporter/utils.py, lines 77-111)

    results = {}
    errors = {}
    if not items:
        return results, errors
    with ThreadPoolExecutor(max_workers=max_workers) as executor:
        future_to_item = {executor.submit(fetch_fn, item): item for item in items}
        for future in as_completed(future_to_item):
            item = future_to_item[future]
            try:
                results[item] = future.result()
            except Exception as e:
                errors[item] = e
    return results, errors
-/

/-- One completed future being harvested: `results[item] = ...` on success,
`errors[item] = e` when `fetch_fn item` raised `e`. -/
def fcStep [DecidableEq α] (fetch_fn : α → Except E β)
    (acc : List (α × β) × List (α × E)) (item : α) : List (α × β) × List (α × E) :=
  match fetch_fn item with
  | .ok v => (dictInsert acc.1 item v, acc.2)
  | .error e => (acc.1, dictInsert acc.2 item e)

/-- `fetch_concurrent(items, fetch_fn)`: run every task, return the dict of
successes and the dict of per-item captured exceptions. A raised exception is
stored, never propagated: the function is total. -/
def fetch_concurrent [DecidableEq α] (items : List α) (fetch_fn : α → Except E β) :
    List (α × β) × List (α × E) :=
  if items = [] then ([], []) else
  items.foldl (fcStep fetch_fn) ([], [])

/-- Instrumented executor: additionally counts how many times `fetch_fn` is
invoked (one submitted future per item). -/
def fetch_concurrent_traced [DecidableEq α] (items : List α) (fetch_fn : α → Except E β) :
    (List (α × β) × List (α × E)) × Nat :=
  if items = [] then (([], []), 0) else
  items.foldl
    (fun acc item =>
      match fetch_fn item with
      | .ok v => ((dictInsert acc.1.1 item v, acc.1.2), acc.2 + 1)
      | .error e => ((acc.1.1, dictInsert acc.1.2 item e), acc.2 + 1))
    (([], []), 0)

/-- The success entries, in item order. -/
def okEntries (items : List α) (fetch_fn : α → Except E β) : List (α × β) :=
  items.filterMap (fun i => match fetch_fn i with | .ok v => some (i, v) | .error _ => none)

/-- The failure entries, in item order. -/
def errEntries (items : List α) (fetch_fn : α → Except E β) : List (α × E) :=
  items.filterMap (fun i => match fetch_fn i with | .ok _ => none | .error e => some (i, e))

/-- Whether a task succeeded. -/
def exOk : Except E β → Bool
  | .ok _ => true
  | .error _ => false

theorem okEntries_keys (items : List α) (fetch_fn : α → Except E β) :
    (okEntries items fetch_fn).map Prod.fst = items.filter (fun i => exOk (fetch_fn i)) := by
  induction items with
  | nil => rfl
  | cons i rest ih =>
    cases h : fetch_fn i <;> simp [okEntries, List.filter, exOk, h] at ih ⊢ <;>
      simpa [okEntries] using ih

theorem errEntries_keys (items : List α) (fetch_fn : α → Except E β) :
    (errEntries items fetch_fn).map Prod.fst = items.filter (fun i => !exOk (fetch_fn i)) := by
  induction items with
  | nil => rfl
  | cons i rest ih =>
    cases h : fetch_fn i <;> simp [errEntries, List.filter, exOk, h] at ih ⊢ <;>
      simpa [errEntries] using ih

theorem entries_length_sum (items : List α) (fetch_fn : α → Except E β) :
    (okEntries items fetch_fn).length + (errEntries items fetch_fn).length
      = items.length := by
  induction items with
  | nil => rfl
  | cons i rest ih =>
    cases h : fetch_fn i <;> simp [okEntries, errEntries, h] at ih ⊢ <;> omega

theorem fetch_concurrent_go [DecidableEq α] (fetch_fn : α → Except E β) :
    ∀ (items : List α) (accS : List (α × β)) (accE : List (α × E)),
    (∀ i ∈ items, i ∉ accS.map Prod.fst) →
    (∀ i ∈ items, i ∉ accE.map Prod.fst) →
    items.Nodup →
    items.foldl (fcStep fetch_fn) (accS, accE)
      = (accS ++ okEntries items fetch_fn, accE ++ errEntries items fetch_fn)
  | [], accS, accE, _, _, _ => by simp [okEntries, errEntries]
  | i :: rest, accS, accE, hS, hE, hnd => by
    have hndr := (List.nodup_cons.mp hnd).2
    have hir := (List.nodup_cons.mp hnd).1
    cases h : fetch_fn i with
    | ok v =>
      have hstep : fcStep fetch_fn (accS, accE) i = (accS ++ [(i, v)], accE) := by
        simp [fcStep, h, dictInsert_of_not_mem v (hS i (by simp))]
      have hS' : ∀ j ∈ rest, j ∉ (accS ++ [(i, v)]).map Prod.fst := by
        intro j hj
        have hji : j ≠ i := fun hji => hir (hji ▸ hj)
        simp only [List.map_append, List.mem_append, List.map_cons, List.map_nil,
          List.mem_singleton, not_or]
        exact ⟨hS j (by simp [hj]), by simpa using hji⟩
      have hE' : ∀ j ∈ rest, j ∉ accE.map Prod.fst := fun j hj => hE j (by simp [hj])
      calc ((i :: rest).foldl (fcStep fetch_fn) (accS, accE))
          = rest.foldl (fcStep fetch_fn) (accS ++ [(i, v)], accE) := by
            rw [List.foldl_cons, hstep]
        _ = (accS ++ [(i, v)] ++ okEntries rest fetch_fn,
             accE ++ errEntries rest fetch_fn) :=
            fetch_concurrent_go fetch_fn rest _ _ hS' hE' hndr
        _ = (accS ++ okEntries (i :: rest) fetch_fn,
             accE ++ errEntries (i :: rest) fetch_fn) := by
            simp [okEntries, errEntries, h]
    | error e =>
      have hstep : fcStep fetch_fn (accS, accE) i = (accS, accE ++ [(i, e)]) := by
        simp [fcStep, h, dictInsert_of_not_mem e (hE i (by simp))]
      have hE' : ∀ j ∈ rest, j ∉ (accE ++ [(i, e)]).map Prod.fst := by
        intro j hj
        have hji : j ≠ i := fun hji => hir (hji ▸ hj)
        simp only [List.map_append, List.mem_append, List.map_cons, List.map_nil,
          List.mem_singleton, not_or]
        exact ⟨hE j (by simp [hj]), by simpa using hji⟩
      have hS' : ∀ j ∈ rest, j ∉ accS.map Prod.fst := fun j hj => hS j (by simp [hj])
      calc ((i :: rest).foldl (fcStep fetch_fn) (accS, accE))
          = rest.foldl (fcStep fetch_fn) (accS, accE ++ [(i, e)]) := by
            rw [List.foldl_cons, hstep]
        _ = (accS ++ okEntries rest fetch_fn,
             accE ++ [(i, e)] ++ errEntries rest fetch_fn) :=
            fetch_concurrent_go fetch_fn rest _ _ hS' hE' hndr
        _ = (accS ++ okEntries (i :: rest) fetch_fn,
             accE ++ errEntries (i :: rest) fetch_fn) := by
            simp [okEntries, errEntries, h]

/-- Under distinct identities the executor is exactly the item-order
partition of the batch into successes and failures. -/
theorem fetch_concurrent_eq [DecidableEq α] (items : List α) (fetch_fn : α → Except E β)
    (hnd : items.Nodup) :
    fetch_concurrent items fetch_fn
      = (okEntries items fetch_fn, errEntries items fetch_fn) := by
  unfold fetch_concurrent
  by_cases h : items = []
  · subst h; simp [okEntries, errEntries]
  · rw [if_neg h]
    simpa using fetch_concurrent_go fetch_fn items [] [] (by simp) (by simp) hnd

theorem dictFind_okEntries_of_ok [DecidableEq α] {items : List α} {fetch_fn : α → Except E β}
    {i : α} {v : β} (hnd : items.Nodup) (hi : i ∈ items) (h : fetch_fn i = Except.ok v) :
    dictFind i (okEntries items fetch_fn) = some v := by
  induction items with
  | nil => cases hi
  | cons j rest ih =>
    have hndr := (List.nodup_cons.mp hnd).2
    have hjr := (List.nodup_cons.mp hnd).1
    rcases List.mem_cons.mp hi with hij | hir
    · subst hij
      simp [okEntries, h, dictFind]
    · have hne : j ≠ i := fun hji => hjr (hji ▸ hir)
      cases hj : fetch_fn j <;> simp [okEntries, hj, dictFind, hne] <;>
        simpa [okEntries] using ih hndr hir

theorem dictFind_errEntries_of_error [DecidableEq α] {items : List α}
    {fetch_fn : α → Except E β} {i : α} {e : E}
    (hnd : items.Nodup) (hi : i ∈ items) (h : fetch_fn i = Except.error e) :
    dictFind i (errEntries items fetch_fn) = some e := by
  induction items with
  | nil => cases hi
  | cons j rest ih =>
    have hndr := (List.nodup_cons.mp hnd).2
    have hjr := (List.nodup_cons.mp hnd).1
    rcases List.mem_cons.mp hi with hij | hir
    · subst hij
      simp [errEntries, h, dictFind]
    · have hne : j ≠ i := fun hji => hjr (hji ▸ hir)
      cases hj : fetch_fn j <;> simp [errEntries, hj, dictFind, hne] <;>
        simpa [errEntries] using ih hndr hir

theorem dictFind_okEntries_of_error [DecidableEq α] {items : List α}
    {fetch_fn : α → Except E β} {i : α} {e : E} (h : fetch_fn i = Except.error e) :
    dictFind i (okEntries items fetch_fn) = none := by
  refine dictFind_eq_none_of_not_mem ?_
  rw [okEntries_keys]
  intro hmem
  have := (List.mem_filter.mp hmem).2
  simp [exOk, h] at this

theorem dictFind_errEntries_of_ok [DecidableEq α] {items : List α}
    {fetch_fn : α → Except E β} {i : α} {v : β} (h : fetch_fn i = Except.ok v) :
    dictFind i (errEntries items fetch_fn) = none := by
  refine dictFind_eq_none_of_not_mem ?_
  rw [errEntries_keys]
  intro hmem
  have := (List.mem_filter.mp hmem).2
  simp [exOk, h] at this

/-- C1: for a batch of pairwise-distinct identities and any task function,
`|successes| + |failures| = |identities|`, the two key sets are disjoint,
and every identity lands in exactly one of the two maps. -/
theorem C1_executor_partition [DecidableEq α] (items : List α) (fetch_fn : α → Except E β)
    (hnd : items.Nodup) :
    (fetch_concurrent items fetch_fn).1.length
        + (fetch_concurrent items fetch_fn).2.length = items.length
    ∧ (∀ i : α, ¬(i ∈ (fetch_concurrent items fetch_fn).1.map Prod.fst
        ∧ i ∈ (fetch_concurrent items fetch_fn).2.map Prod.fst))
    ∧ (∀ i ∈ items,
        (i ∈ (fetch_concurrent items fetch_fn).1.map Prod.fst
          ∧ i ∉ (fetch_concurrent items fetch_fn).2.map Prod.fst)
        ∨ (i ∈ (fetch_concurrent items fetch_fn).2.map Prod.fst
          ∧ i ∉ (fetch_concurrent items fetch_fn).1.map Prod.fst)) := by
  rw [fetch_concurrent_eq items fetch_fn hnd]
  refine ⟨entries_length_sum items fetch_fn, ?_, ?_⟩
  · rintro i ⟨h1, h2⟩
    rw [okEntries_keys] at h1
    rw [errEntries_keys] at h2
    have e1 := (List.mem_filter.mp h1).2
    have e2 := (List.mem_filter.mp h2).2
    rw [e1] at e2
    simp at e2
  · intro i hi
    rw [okEntries_keys, errEntries_keys]
    cases hex : exOk (fetch_fn i) with
    | true =>
      refine Or.inl ⟨List.mem_filter.mpr ⟨hi, hex⟩, fun hmem => ?_⟩
      have := (List.mem_filter.mp hmem).2
      rw [hex] at this
      simp at this
    | false =>
      refine Or.inr ⟨List.mem_filter.mpr ⟨hi, by simp [hex]⟩, fun hmem => ?_⟩
      have := (List.mem_filter.mp hmem).2
      rw [hex] at this
      simp at this

theorem C1_executor_partition_witness :
    ([0, 1, 2] : List Nat).Nodup
    ∧ ((fetch_concurrent [0, 1, 2] (fun i => if i = 2 then Except.error 9 else Except.ok (i + 1))).1.length
        + (fetch_concurrent [0, 1, 2] (fun i => if i = 2 then Except.error 9 else Except.ok (i + 1))).2.length
        = ([0, 1, 2] : List Nat).length
      ∧ (∀ i : Nat, ¬(i ∈ (fetch_concurrent [0, 1, 2] (fun i => if i = 2 then Except.error 9 else Except.ok (i + 1))).1.map Prod.fst
          ∧ i ∈ (fetch_concurrent [0, 1, 2] (fun i => if i = 2 then Except.error 9 else Except.ok (i + 1))).2.map Prod.fst))
      ∧ (∀ i ∈ ([0, 1, 2] : List Nat),
          (i ∈ (fetch_concurrent [0, 1, 2] (fun i => if i = 2 then Except.error 9 else Except.ok (i + 1))).1.map Prod.fst
            ∧ i ∉ (fetch_concurrent [0, 1, 2] (fun i => if i = 2 then Except.error 9 else Except.ok (i + 1))).2.map Prod.fst)
          ∨ (i ∈ (fetch_concurrent [0, 1, 2] (fun i => if i = 2 then Except.error 9 else Except.ok (i + 1))).2.map Prod.fst
            ∧ i ∉ (fetch_concurrent [0, 1, 2] (fun i => if i = 2 then Except.error 9 else Except.ok (i + 1))).1.map Prod.fst))) :=
  ⟨by decide,
   C1_executor_partition [0, 1, 2] (fun i => if i = 2 then Except.error 9 else Except.ok (i + 1))
     (by decide)⟩

/-- C4: an exception raised by a task is caught and stored as that
identity's entry in the failure map (the executor stays total, so nothing
propagates to the caller), while every other identity's outcome is
determined solely by its own task result. -/
theorem C4_executor_isolation [DecidableEq α] (items : List α) (fetch_fn : α → Except E β)
    (hnd : items.Nodup) :
    (∀ i ∈ items, ∀ e : E, fetch_fn i = Except.error e →
        dictFind i (fetch_concurrent items fetch_fn).2 = some e
        ∧ dictFind i (fetch_concurrent items fetch_fn).1 = none)
    ∧ (∀ i ∈ items, ∀ v : β, fetch_fn i = Except.ok v →
        dictFind i (fetch_concurrent items fetch_fn).1 = some v
        ∧ dictFind i (fetch_concurrent items fetch_fn).2 = none) := by
  rw [fetch_concurrent_eq items fetch_fn hnd]
  constructor
  · intro i hi e he
    exact ⟨dictFind_errEntries_of_error hnd hi he, dictFind_okEntries_of_error he⟩
  · intro i hi v hv
    exact ⟨dictFind_okEntries_of_ok hnd hi hv, dictFind_errEntries_of_ok hv⟩

theorem C4_executor_isolation_witness :
    ([0, 1, 2] : List Nat).Nodup
    ∧ ((∀ i ∈ ([0, 1, 2] : List Nat), ∀ e : Nat,
          (fun i => if i = 1 then Except.error 9 else Except.ok (i + 1)) i = Except.error e →
          dictFind i (fetch_concurrent [0, 1, 2] (fun i => if i = 1 then Except.error 9 else Except.ok (i + 1))).2 = some e
          ∧ dictFind i (fetch_concurrent [0, 1, 2] (fun i => if i = 1 then Except.error 9 else Except.ok (i + 1))).1 = none)
      ∧ (∀ i ∈ ([0, 1, 2] : List Nat), ∀ v : Nat,
          (fun i => if i = 1 then Except.error 9 else Except.ok (i + 1)) i = Except.ok v →
          dictFind i (fetch_concurrent [0, 1, 2] (fun i => if i = 1 then Except.error 9 else Except.ok (i + 1))).1 = some v
          ∧ dictFind i (fetch_concurrent [0, 1, 2] (fun i => if i = 1 then Except.error 9 else Except.ok (i + 1))).2 = none)) :=
  ⟨by decide,
   C4_executor_isolation [0, 1, 2] (fun i => if i = 1 then Except.error 9 else Except.ok (i + 1))
     (by decide)⟩

/-- C9: the empty batch returns two empty maps, and the instrumented
executor records zero task-function invocations. -/
theorem C9_executor_empty {α : Type} {β E : Type} [DecidableEq α]
    (fetch_fn : α → Except E β) :
    fetch_concurrent ([] : List α) fetch_fn = ([], [])
    ∧ fetch_concurrent_traced ([] : List α) fetch_fn = (([], []), 0) :=
  ⟨rfl, rfl⟩

/-!
## HTTP Client: `YazioClient.get` (src/yazio_exporter/client.py, lines 33-114)

One attempt of `self.session.get(url, **kwargs)` either yields an HTTP
response with a status code, raises `requests.Timeout`, or raises some
other `requests.RequestException` (a transport error, tagged here with a
number so that "the original exception object" is trackable).

For a 401 response the code tries `response.json()`; what matters to the
error message is only whether that call raises (`ValueError`) and, if it
parses, whether the parsed object has an `error` or `message` key. That
is the `parse401 : Option Bool` tag: `none` = body does not parse,
`some b` = body parses and `b` says whether one of those keys is present.

`requests.Response.ok` is `status_code < 400`.
-/

/-- One outcome of `self.session.get`. -/
inductive Outcome where
  | resp (status : Nat) (parse401 : Option Bool)
  | timeout
  | transport (e : Nat)
deriving DecidableEq

/-- How one call of `YazioClient.get` terminates. -/
inductive GetResult where
  | ok (status : Nat)
  | authError (msg : String)
  | apiError (msg : String) (statusCode : Option Nat) (url : String)
  | timeoutRaised
  | transportRaised (e : Nat)
  | noResponse
deriving DecidableEq

/-- The fixed re-authentication message of client.py. -/
def reauthMessage : String :=
  "HTTP 401 Unauthorized: Token may have expired. Please run \x27yazio-exporter login\x27 again to refresh your authentication."

/-- The initial 401 message, kept when the body parses but carries neither
an `error` nor a `message` key. -/
def default401Message (url : String) : String :=
  "HTTP 401 error for URL: " ++ url

/-- The message actually raised for a 401 response. -/
def msg401 (url : String) : Option Bool → String
  | none => reauthMessage
  | some true => reauthMessage
  | some false => default401Message url

/-- `f"HTTP {response.status_code} error for URL: {url}"`. -/
def apiErrorMessage (status : Nat) (url : String) : String :=
  "HTTP " ++ toString status ++ " error for URL: " ++ url

/-- The `for attempt in range(max_retries)` loop of `YazioClient.get`.
`remaining` is the number of loop iterations left (`max_retries - attempt`);
returns the terminal result, the number of attempts made from this point
on, and the backoff sleeps performed, in order. Falling out of the loop
(only possible when `max_retries = 0`) returns `noResponse` (Python `None`). -/
def getLoop (call : Nat → Outcome) (url : String) (max_retries : Nat) :
    Nat → Nat → GetResult × Nat × List Nat
  | 0, _ => (.noResponse, 0, [])
  | remaining + 1, attempt =>
    match call attempt with
    | .timeout => (.timeoutRaised, 1, [])
    | .transport e =>
      if attempt < max_retries - 1 then
        let rest := getLoop call url max_retries remaining (attempt + 1)
        (rest.1, rest.2.1 + 1, 2 ^ attempt :: rest.2.2)
      else
        (.transportRaised e, 1, [])
    | .resp status parse401 =>
      if status = 401 then
        (.authError (msg401 url parse401), 1, [])
      else if 500 ≤ status ∧ status < 600 then
        if attempt < max_retries - 1 then
          let rest := getLoop call url max_retries remaining (attempt + 1)
          (rest.1, rest.2.1 + 1, 2 ^ attempt :: rest.2.2)
        else
          (.apiError (apiErrorMessage status url) (some status) url, 1, [])
      else if ¬ status < 400 then
        (.apiError (apiErrorMessage status url) (some status) url, 1, [])
      else
        (.ok status, 1, [])

/-- `YazioClient.get(endpoint, max_retries)`: result, total attempts,
backoff sleeps in seconds. -/
def client_get (call : Nat → Outcome) (url : String) (max_retries : Nat) :
    GetResult × Nat × List Nat :=
  getLoop call url max_retries max_retries 0

section GetStepLemmas

variable {call : Nat → Outcome} {url : String} {max_retries : Nat}
variable {attempt remaining : Nat}

theorem getLoop_ok {st : Nat} {p : Option Bool}
    (hc : call attempt = Outcome.resp st p) (h1 : st < 400) :
    getLoop call url max_retries (remaining + 1) attempt = (.ok st, 1, []) := by
  simp only [getLoop, hc]
  rw [if_neg (by omega), if_neg (by omega), if_neg (by simp [h1])]

theorem getLoop_401 {p : Option Bool} (hc : call attempt = Outcome.resp 401 p) :
    getLoop call url max_retries (remaining + 1) attempt
      = (.authError (msg401 url p), 1, []) := by
  simp only [getLoop, hc]
  simp

theorem getLoop_4xx {st : Nat} {p : Option Bool}
    (hc : call attempt = Outcome.resp st p) (h1 : 400 ≤ st) (h2 : st ≠ 401) (h3 : st < 500) :
    getLoop call url max_retries (remaining + 1) attempt
      = (.apiError (apiErrorMessage st url) (some st) url, 1, []) := by
  simp only [getLoop, hc]
  rw [if_neg h2, if_neg (by omega), if_pos (by omega)]

theorem getLoop_5xx_retry {st : Nat} {p : Option Bool}
    (hc : call attempt = Outcome.resp st p) (h5 : 500 ≤ st ∧ st < 600)
    (hlt : attempt < max_retries - 1) :
    getLoop call url max_retries (remaining + 1) attempt
      = ((getLoop call url max_retries remaining (attempt + 1)).1,
         (getLoop call url max_retries remaining (attempt + 1)).2.1 + 1,
         2 ^ attempt :: (getLoop call url max_retries remaining (attempt + 1)).2.2) := by
  simp only [getLoop, hc]
  rw [if_neg (by omega), if_pos h5, if_pos hlt]

theorem getLoop_5xx_exhausted {st : Nat} {p : Option Bool}
    (hc : call attempt = Outcome.resp st p) (h5 : 500 ≤ st ∧ st < 600)
    (hge : ¬ attempt < max_retries - 1) :
    getLoop call url max_retries (remaining + 1) attempt
      = (.apiError (apiErrorMessage st url) (some st) url, 1, []) := by
  simp only [getLoop, hc]
  rw [if_neg (by omega), if_pos h5, if_neg hge]

theorem getLoop_timeout (hc : call attempt = Outcome.timeout) :
    getLoop call url max_retries (remaining + 1) attempt = (.timeoutRaised, 1, []) := by
  simp only [getLoop, hc]

theorem getLoop_transport_retry {e : Nat}
    (hc : call attempt = Outcome.transport e) (hlt : attempt < max_retries - 1) :
    getLoop call url max_retries (remaining + 1) attempt
      = ((getLoop call url max_retries remaining (attempt + 1)).1,
         (getLoop call url max_retries remaining (attempt + 1)).2.1 + 1,
         2 ^ attempt :: (getLoop call url max_retries remaining (attempt + 1)).2.2) := by
  simp only [getLoop, hc]
  rw [if_pos hlt]

theorem getLoop_transport_exhausted {e : Nat}
    (hc : call attempt = Outcome.transport e) (hge : ¬ attempt < max_retries - 1) :
    getLoop call url max_retries (remaining + 1) attempt
      = (.transportRaised e, 1, []) := by
  simp only [getLoop, hc]
  rw [if_neg hge]

end GetStepLemmas

/-- An outcome the retry loop of `YazioClient.get` retries on: a 5xx
response or a non-timeout transport error. -/
def retryable : Outcome → Prop
  | .resp st _ => 500 ≤ st ∧ st < 600
  | .transport _ => True
  | .timeout => False

/-- C2: with `max_retries = 3` (the default `MAX_RETRIES`), a call
sequence of N 5xx responses followed by a success returns the success
after exactly N+1 attempts when N+1 ≤ 3 and sleeps 2^0, ..., 2^(N-1)
seconds before the re-attempts; when N+1 > 3 it raises `APIError` (with
status code and URL) after exactly 3 attempts, having slept 1s and 2s. -/
theorem C2_retry_profile (url : String) (s : Nat → Nat) (N : Nat)
    (h5 : ∀ i, i < N → 500 ≤ s i ∧ s i < 600) (hok : s N < 400) :
    (N + 1 ≤ 3 →
      client_get (fun i => Outcome.resp (s i) none) url 3
        = (.ok (s N), N + 1, (List.range N).map (fun i => 2 ^ i)))
    ∧ (3 < N + 1 →
      client_get (fun i => Outcome.resp (s i) none) url 3
        = (.apiError (apiErrorMessage (s 2) url) (some (s 2)) url, 3, [1, 2])) := by
  constructor
  · intro hN
    have hN2 : N ≤ 2 := by omega
    interval_cases N
    · rw [client_get, getLoop_ok rfl hok]
      simp
    · rw [client_get, getLoop_5xx_retry rfl (h5 0 (by omega)) (by omega),
          getLoop_ok rfl hok]
      simp [List.range_succ]
    · rw [client_get, getLoop_5xx_retry rfl (h5 0 (by omega)) (by omega),
          getLoop_5xx_retry rfl (h5 1 (by omega)) (by omega),
          getLoop_ok rfl hok]
      simp [List.range_succ]
  · intro hN
    rw [client_get, getLoop_5xx_retry rfl (h5 0 (by omega)) (by omega),
        getLoop_5xx_retry rfl (h5 1 (by omega)) (by omega),
        getLoop_5xx_exhausted rfl (h5 2 (by omega)) (by omega)]
    simp

theorem C2_retry_profile_witness :
    (∀ i, i < 1 →
        500 ≤ (fun i : Nat => if i < 1 then 503 else 200) i
        ∧ (fun i : Nat => if i < 1 then 503 else 200) i < 600)
    ∧ (fun i : Nat => if i < 1 then 503 else 200) 1 < 400
    ∧ ((1 + 1 ≤ 3 →
        client_get (fun i => Outcome.resp ((fun i : Nat => if i < 1 then 503 else 200) i) none)
            "https://yzapi.yazio.com/v15/user" 3
          = (.ok ((fun i : Nat => if i < 1 then 503 else 200) 1), 1 + 1,
             (List.range 1).map (fun i => 2 ^ i)))
      ∧ (3 < 1 + 1 →
        client_get (fun i => Outcome.resp ((fun i : Nat => if i < 1 then 503 else 200) i) none)
            "https://yzapi.yazio.com/v15/user" 3
          = (.apiError (apiErrorMessage ((fun i : Nat => if i < 1 then 503 else 200) 2)
               "https://yzapi.yazio.com/v15/user")
             (some ((fun i : Nat => if i < 1 then 503 else 200) 2))
             "https://yzapi.yazio.com/v15/user", 3, [1, 2]))) :=
  ⟨by decide, by decide,
   C2_retry_profile "https://yzapi.yazio.com/v15/user"
     (fun i => if i < 1 then 503 else 200) 1 (by decide) (by decide)⟩

/-- C8: a timeout on any reachable attempt is propagated at once: the
result is the timeout itself (no conversion), the attempt on which it
occurred is the last one, and no backoff sleep follows it. -/
theorem C8_timeout_propagation (url : String) (call : Nat → Outcome) (k : Nat)
    (hk : k < 3) (hpre : ∀ i, i < k → retryable (call i))
    (ht : call k = Outcome.timeout) :
    client_get call url 3 = (.timeoutRaised, k + 1, (List.range k).map (fun i => 2 ^ i)) := by
  interval_cases k
  · rw [client_get, getLoop_timeout ht]
    simp
  · have h0 := hpre 0 (by omega)
    cases hc0 : call 0 with
    | timeout => rw [hc0] at h0; simp [retryable] at h0
    | resp st p =>
      rw [hc0] at h0
      simp only [retryable] at h0
      rw [client_get, getLoop_5xx_retry hc0 h0 (by omega), getLoop_timeout ht]
      simp [List.range_succ]
    | transport e =>
      rw [client_get, getLoop_transport_retry hc0 (by omega), getLoop_timeout ht]
      simp [List.range_succ]
  · have h0 := hpre 0 (by omega)
    have h1 := hpre 1 (by omega)
    cases hc0 : call 0 with
    | timeout => rw [hc0] at h0; simp [retryable] at h0
    | resp st p =>
      rw [hc0] at h0
      simp only [retryable] at h0
      cases hc1 : call 1 with
      | timeout => rw [hc1] at h1; simp [retryable] at h1
      | resp st1 p1 =>
        rw [hc1] at h1
        simp only [retryable] at h1
        rw [client_get, getLoop_5xx_retry hc0 h0 (by omega),
            getLoop_5xx_retry hc1 h1 (by omega), getLoop_timeout ht]
        simp [List.range_succ]
      | transport e1 =>
        rw [client_get, getLoop_5xx_retry hc0 h0 (by omega),
            getLoop_transport_retry hc1 (by omega), getLoop_timeout ht]
        simp [List.range_succ]
    | transport e =>
      cases hc1 : call 1 with
      | timeout => rw [hc1] at h1; simp [retryable] at h1
      | resp st1 p1 =>
        rw [hc1] at h1
        simp only [retryable] at h1
        rw [client_get, getLoop_transport_retry hc0 (by omega),
            getLoop_5xx_retry hc1 h1 (by omega), getLoop_timeout ht]
        simp [List.range_succ]
      | transport e1 =>
        rw [client_get, getLoop_transport_retry hc0 (by omega),
            getLoop_transport_retry hc1 (by omega), getLoop_timeout ht]
        simp [List.range_succ]

theorem C8_timeout_propagation_witness :
    2 < 3
    ∧ (∀ i, i < 2 → retryable ((fun i => if i = 2 then Outcome.timeout else Outcome.resp 503 none) i))
    ∧ (fun i => if i = 2 then Outcome.timeout else Outcome.resp 503 none) 2 = Outcome.timeout
    ∧ client_get (fun i => if i = 2 then Outcome.timeout else Outcome.resp 503 none)
        "https://yzapi.yazio.com/v15/user" 3
      = (.timeoutRaised, 2 + 1, (List.range 2).map (fun i => 2 ^ i)) :=
  ⟨by decide,
   by intro i hi; interval_cases i <;> exact ⟨by omega, by omega⟩,
   rfl,
   C8_timeout_propagation "https://yzapi.yazio.com/v15/user"
     (fun i => if i = 2 then Outcome.timeout else Outcome.resp 503 none) 2
     (by decide) (by intro i hi; interval_cases i <;> exact ⟨by omega, by omega⟩) rfl⟩

/-- C5 counterexample: when every attempt fails with a non-timeout
transport error, `YazioClient.get` does not raise an `APIError` after
exhausting the retries; it re-raises the original transport exception
(its `raise` in the final `except requests.RequestException` branch),
so the claimed failure shape is wrong at this input. -/
theorem C5_counterexample :
    client_get (fun _ => Outcome.transport 7) "https://yzapi.yazio.com/v15/user" 3
      = (.transportRaised 7, 3, [1, 2])
    ∧ ∀ (m : String) (sc : Option Nat) (u : String),
        (client_get (fun _ => Outcome.transport 7) "https://yzapi.yazio.com/v15/user" 3).1
          ≠ .apiError m sc u := by
  refine ⟨rfl, ?_⟩
  intro m sc u h
  have h' : GetResult.transportRaised 7 = GetResult.apiError m sc u := h
  cases h'

/-- C5 amended: when every attempt fails with a non-timeout transport
error, the client retries with backoff sleeps 1s and 2s and, after the
third attempt, re-raises the last transport exception unchanged (no
conversion to `APIError`, hence no status code or URL attached). -/
theorem C5_transport_exhaustion (url : String) (es : Nat → Nat) :
    client_get (fun i => Outcome.transport (es i)) url 3
      = (.transportRaised (es 2), 3, [1, 2]) := by
  have key : ∀ c : Nat → Outcome, (∀ i, c i = Outcome.transport (es i)) →
      client_get c url 3 = (.transportRaised (es 2), 3, [1, 2]) := by
    intro c hcall
    rw [client_get, getLoop_transport_retry (hcall 0) (by omega),
        getLoop_transport_retry (hcall 1) (by omega),
        getLoop_transport_exhausted (hcall 2) (by omega)]
    simp
  exact key _ (fun i => rfl)

/-- C6 counterexample: a 401 response whose body parses as JSON but has
neither an `error` nor a `message` key raises an `AuthenticationError`
whose message is the plain `HTTP 401 error for URL: ...` text, which is
not the re-authentication instruction — so the "in every case" part of
the claim fails at this input. -/
theorem C6_counterexample :
    client_get (fun _ => Outcome.resp 401 (some false)) "https://yzapi.yazio.com/v15/user" 3
      = (.authError (default401Message "https://yzapi.yazio.com/v15/user"), 1, [])
    ∧ default401Message "https://yzapi.yazio.com/v15/user" ≠ reauthMessage := by
  constructor
  · rw [client_get, getLoop_401 rfl]
    rfl
  · decide

/-- C6 amended: a 401 response raises `AuthenticationError` on the first
attempt, with no retry and no backoff sleep; the message is the
re-authentication instruction when the body fails to parse or parses
with an `error`/`message` key, and the default `HTTP 401 error for URL`
text when the body parses without either key. -/
theorem C6_auth_first_attempt (url : String) (call : Nat → Outcome) (p : Option Bool)
    (hc : call 0 = Outcome.resp 401 p) :
    client_get call url 3 = (.authError (msg401 url p), 1, [])
    ∧ msg401 url none = reauthMessage
    ∧ msg401 url (some true) = reauthMessage
    ∧ msg401 url (some false) = default401Message url := by
  refine ⟨?_, rfl, rfl, rfl⟩
  rw [client_get, getLoop_401 hc]

theorem C6_auth_first_attempt_witness :
    (fun _ : Nat => Outcome.resp 401 none) 0 = Outcome.resp 401 none
    ∧ (client_get (fun _ : Nat => Outcome.resp 401 none) "https://yzapi.yazio.com/v15/user" 3
        = (.authError (msg401 "https://yzapi.yazio.com/v15/user" none), 1, [])
      ∧ msg401 "https://yzapi.yazio.com/v15/user" none = reauthMessage
      ∧ msg401 "https://yzapi.yazio.com/v15/user" (some true) = reauthMessage
      ∧ msg401 "https://yzapi.yazio.com/v15/user" (some false)
          = default401Message "https://yzapi.yazio.com/v15/user") :=
  ⟨rfl, C6_auth_first_attempt "https://yzapi.yazio.com/v15/user"
    (fun _ => Outcome.resp 401 none) none rfl⟩

/-!
## Discovery Scanner: `discover_month` and `auto_discover_months`
(src/yazio_exporter/export_days.py, lines 21-57 and 216-246)

`query` abstracts `client.get` on the discovery endpoint followed by the
JSON date extraction of `discover_month` (collect `entry["date"]` from a
list response, `[]` for anything else); it is a parameter because the
network response is external input. `calendar.monthrange(y, m)[1]` and
`date.strftime("%Y-%m-%d")` are Python standard library calls, embedded
below from their documented proleptic-Gregorian behaviour. `today` is
the fixed pair `(ty, tm)` of `date.today()`.
-/

/-- Gregorian leap year rule used by `calendar.monthrange`. -/
def isLeapYear (y : Nat) : Bool :=
  y % 4 = 0 && (y % 100 != 0 || y % 400 = 0)

/-- `calendar.monthrange(y, m)[1]`: the number of days in the month. -/
def daysInMonth (y m : Nat) : Nat :=
  if m = 2 then (if isLeapYear y then 29 else 28)
  else if m = 4 ∨ m = 6 ∨ m = 9 ∨ m = 11 then 30
  else 31

/-- Zero-padded two-digit field of `strftime`. -/
def pad2 (n : Nat) : String :=
  if n < 10 then "0" ++ toString n else toString n

/-- Zero-padded four-digit year field of `strftime`. -/
def pad4 (n : Nat) : String :=
  if n < 10 then "000" ++ toString n
  else if n < 100 then "00" ++ toString n
  else if n < 1000 then "0" ++ toString n
  else toString n

/-- `date(y, m, d).strftime("%Y-%m-%d")`. -/
def fmtDate (y m d : Nat) : String :=
  pad4 y ++ "-" ++ pad2 m ++ "-" ++ pad2 d

/-- The discovery endpoint string built by `discover_month`. -/
def discoveryEndpoint (start_date end_date : String) : String :=
  "/user/consumed-items/nutrients-daily?start=" ++ start_date ++ "&end=" ++ end_date

/-- `discover_month(client, year, month)`: query the `[first, last]` day
range of the month and return the extracted dates. -/
def discover_month (query : String → List String) (year month : Nat) : List String :=
  query (discoveryEndpoint (fmtDate year month 1)
    (fmtDate year month (daysInMonth year month)))

/-- The `while (current_year, current_month) <= (today.year, today.month)`
loop of `auto_discover_months`, with the Python tuple comparison spelled
out and `fuel` bounding the number of iterations (chosen large enough in
`auto_discover_months` below that it never runs out for calendar-valid
inputs). -/
def autoDiscoverGo (query : String → List String) (ty tm : Nat) :
    Nat → Nat → Nat → List String
  | 0, _, _ => []
  | fuel + 1, y, m =>
    if y < ty ∨ (y = ty ∧ m ≤ tm) then
      (if (discover_month query y m).isEmpty then [] else discover_month query y m) ++
        (if m + 1 > 12 then autoDiscoverGo query ty tm fuel (y + 1) 1
         else autoDiscoverGo query ty tm fuel y (m + 1))
    else []

/-- `auto_discover_months(client, start_year, start_month)` with `today`
fixed at `(ty, tm)`. -/
def auto_discover_months (query : String → List String)
    (ty tm start_year start_month : Nat) : List String :=
  autoDiscoverGo query ty tm (12 * ty + tm + 2) start_year start_month

/-- The months visited by the loop of `auto_discover_months`, in visit
order (instrumentation of the same loop; independent of `query`). -/
def scanMonthsGo (ty tm : Nat) : Nat → Nat → Nat → List (Nat × Nat)
  | 0, _, _ => []
  | fuel + 1, y, m =>
    if y < ty ∨ (y = ty ∧ m ≤ tm) then
      (y, m) :: (if m + 1 > 12 then scanMonthsGo ty tm fuel (y + 1) 1
                 else scanMonthsGo ty tm fuel y (m + 1))
    else []

/-- The months visited, with the fuel of `auto_discover_months`. -/
def scanMonths (ty tm start_year start_month : Nat) : List (Nat × Nat) :=
  scanMonthsGo ty tm (12 * ty + tm + 2) start_year start_month

/-- The k-th calendar month (1-based linear index 12*y + m). -/
def monthOfIdx (k : Nat) : Nat × Nat :=
  ((k - 1) / 12, (k - 1) % 12 + 1)

/-- Calendar successor of a `(year, month)` pair, December wrapping to
January of the next year. -/
def nextMonth (p : Nat × Nat) : Nat × Nat :=
  if p.2 + 1 > 12 then (p.1 + 1, 1) else (p.1, p.2 + 1)

theorem if_isEmpty_eq_self (l : List String) : (if l.isEmpty then [] else l) = l := by
  cases l <;> simp

theorem autoDiscoverGo_eq_scan (query : String → List String) (ty tm : Nat) :
    ∀ (fuel y m : Nat),
    autoDiscoverGo query ty tm fuel y m
      = ((scanMonthsGo ty tm fuel y m).map
          (fun p => discover_month query p.1 p.2)).flatten := by
  intro fuel
  induction fuel with
  | zero => intro y m; simp [autoDiscoverGo, scanMonthsGo]
  | succ f ih =>
    intro y m
    simp only [autoDiscoverGo, scanMonthsGo]
    by_cases hg : y < ty ∨ (y = ty ∧ m ≤ tm)
    · rw [if_pos hg, if_pos hg, List.map_cons, List.flatten_cons]
      rw [if_isEmpty_eq_self]
      by_cases hw : m + 1 > 12
      · rw [if_pos hw, if_pos hw, ih]
      · rw [if_neg hw, if_neg hw, ih]
    · rw [if_neg hg, if_neg hg]
      simp

theorem nextMonth_monthOfIdx (k : Nat) (hk : 1 ≤ k) :
    nextMonth (monthOfIdx k) = monthOfIdx (k + 1) := by
  simp only [nextMonth, monthOfIdx]
  split <;> rw [Prod.mk.injEq] <;> constructor <;> omega

theorem scanMonthsGo_eq (ty tm : Nat) (h3 : 1 ≤ tm) (h4 : tm ≤ 12) :
    ∀ (fuel y m : Nat), 1 ≤ m → m ≤ 12 →
    12 * ty + tm + 1 - (12 * y + m) ≤ fuel →
    scanMonthsGo ty tm fuel y m
      = (List.range (12 * ty + tm + 1 - (12 * y + m))).map
          (fun i => monthOfIdx (12 * y + m + i)) := by
  intro fuel
  induction fuel with
  | zero =>
    intro y m h1 h2 hf
    have hn : 12 * ty + tm + 1 - (12 * y + m) = 0 := by omega
    rw [hn]
    simp [scanMonthsGo]
  | succ f ih =>
    intro y m h1 h2 hf
    simp only [scanMonthsGo]
    by_cases hg : y < ty ∨ (y = ty ∧ m ≤ tm)
    · have hn1 : 1 ≤ 12 * ty + tm + 1 - (12 * y + m) := by omega
      rw [if_pos hg]
      have hr : 12 * ty + tm + 1 - (12 * y + m)
          = (12 * ty + tm + 1 - (12 * y + m + 1)) + 1 := by omega
      rw [hr, List.range_succ_eq_map, List.map_cons, List.map_map]
      by_cases hw : m + 1 > 12
      · have hm12 : m = 12 := by omega
        rw [if_pos hw, ih (y + 1) 1 (by omega) (by omega) (by omega)]
        congr 1
        · simp only [monthOfIdx, Prod.mk.injEq]
          constructor <;> omega
        · have harg : 12 * ty + tm + 1 - (12 * (y + 1) + 1)
              = 12 * ty + tm + 1 - (12 * y + m + 1) := by omega
          rw [harg]
          refine List.map_congr_left ?_
          intro i _
          simp only [Function.comp]
          congr 1
          omega
      · rw [if_neg hw, ih y (m + 1) (by omega) (by omega) (by omega)]
        congr 1
        · simp only [monthOfIdx, Prod.mk.injEq]
          constructor <;> omega
        · have harg : 12 * ty + tm + 1 - (12 * y + (m + 1))
              = 12 * ty + tm + 1 - (12 * y + m + 1) := by omega
          rw [harg]
          refine List.map_congr_left ?_
          intro i _
          simp only [Function.comp]
          congr 1
          omega
    · rw [if_neg hg]
      have hn : 12 * ty + tm + 1 - (12 * y + m) = 0 := by omega
      rw [hn]
      simp

/-- C3: for a start month at or before the fixed current month, the
scanner issues exactly one discovery query per calendar month from the
start month through the current month inclusive, visiting consecutive
calendar months (December wrapping to January of the next year), with
each query covering the range from the first to the last day of the
month (month length from `daysInMonth`, 29-day February in leap years);
the scan does not depend on the query results (no month is skipped on
empty data), and the returned list is the in-order concatenation of the
per-month results. -/
theorem C3_discovery_scan (query : String → List String) (ty tm sy sm : Nat)
    (h1 : 1 ≤ sm) (h2 : sm ≤ 12) (h3 : 1 ≤ tm) (h4 : tm ≤ 12)
    (h5 : sy < ty ∨ (sy = ty ∧ sm ≤ tm)) :
    auto_discover_months query ty tm sy sm
      = ((scanMonths ty tm sy sm).map (fun p => discover_month query p.1 p.2)).flatten
    ∧ scanMonths ty tm sy sm
      = (List.range (12 * ty + tm + 1 - (12 * sy + sm))).map
          (fun i => monthOfIdx (12 * sy + sm + i))
    ∧ (scanMonths ty tm sy sm).length = 12 * ty + tm + 1 - (12 * sy + sm)
    ∧ (scanMonths ty tm sy sm)[0]? = some (sy, sm)
    ∧ (scanMonths ty tm sy sm)[12 * ty + tm - (12 * sy + sm)]? = some (ty, tm)
    ∧ (∀ i, i + 1 < 12 * ty + tm + 1 - (12 * sy + sm) →
        (scanMonths ty tm sy sm)[i + 1]? = ((scanMonths ty tm sy sm)[i]?).map nextMonth)
    ∧ (∀ y m, discover_month query y m
        = query (discoveryEndpoint (fmtDate y m 1) (fmtDate y m (daysInMonth y m))))
    ∧ (∀ y, daysInMonth y 2 = if isLeapYear y then 29 else 28) := by
  have hb : scanMonths ty tm sy sm
      = (List.range (12 * ty + tm + 1 - (12 * sy + sm))).map
          (fun i => monthOfIdx (12 * sy + sm + i)) :=
    scanMonthsGo_eq ty tm h3 h4 _ sy sm h1 h2 (by omega)
  have hn1 : 1 ≤ 12 * ty + tm + 1 - (12 * sy + sm) := by omega
  refine ⟨autoDiscoverGo_eq_scan query ty tm _ sy sm, hb, ?_, ?_, ?_, ?_,
    fun y m => rfl, fun y => rfl⟩
  · rw [hb]
    simp
  · rw [hb, List.getElem?_map, List.getElem?_range (by omega)]
    simp only [Option.map_some', Option.some.injEq, monthOfIdx, Prod.mk.injEq]
    constructor <;> omega
  · rw [hb, List.getElem?_map, List.getElem?_range (by omega)]
    simp only [Option.map_some', Option.some.injEq, monthOfIdx, Prod.mk.injEq]
    constructor <;> omega
  · intro i hi
    rw [hb, List.getElem?_map, List.getElem?_range (by omega),
        List.getElem?_map, List.getElem?_range (by omega)]
    simp only [Option.map_some', Option.some.injEq]
    rw [show 12 * sy + sm + (i + 1) = (12 * sy + sm + i) + 1 by omega]
    exact (nextMonth_monthOfIdx (12 * sy + sm + i) (by omega)).symm

theorem C3_discovery_scan_witness :
    1 ≤ 11 ∧ 11 ≤ 12 ∧ 1 ≤ 2 ∧ 2 ≤ 12
    ∧ (2023 < 2024 ∨ (2023 = 2024 ∧ 11 ≤ 2))
    ∧ (auto_discover_months
          (fun e => if e = discoveryEndpoint "2024-01-01" "2024-01-31"
            then ["2024-01-15", "2024-01-20"] else []) 2024 2 2023 11
        = ((scanMonths 2024 2 2023 11).map
            (fun p => discover_month
              (fun e => if e = discoveryEndpoint "2024-01-01" "2024-01-31"
                then ["2024-01-15", "2024-01-20"] else []) p.1 p.2)).flatten
      ∧ scanMonths 2024 2 2023 11
          = (List.range (12 * 2024 + 2 + 1 - (12 * 2023 + 11))).map
              (fun i => monthOfIdx (12 * 2023 + 11 + i))
      ∧ (scanMonths 2024 2 2023 11).length = 12 * 2024 + 2 + 1 - (12 * 2023 + 11)
      ∧ (scanMonths 2024 2 2023 11)[0]? = some (2023, 11)
      ∧ (scanMonths 2024 2 2023 11)[12 * 2024 + 2 - (12 * 2023 + 11)]? = some (2024, 2)
      ∧ (∀ i, i + 1 < 12 * 2024 + 2 + 1 - (12 * 2023 + 11) →
          (scanMonths 2024 2 2023 11)[i + 1]?
            = ((scanMonths 2024 2 2023 11)[i]?).map nextMonth)
      ∧ (∀ y m, discover_month
            (fun e => if e = discoveryEndpoint "2024-01-01" "2024-01-31"
              then ["2024-01-15", "2024-01-20"] else []) y m
          = (fun e => if e = discoveryEndpoint "2024-01-01" "2024-01-31"
              then ["2024-01-15", "2024-01-20"] else [])
            (discoveryEndpoint (fmtDate y m 1) (fmtDate y m (daysInMonth y m))))
      ∧ (∀ y, daysInMonth y 2 = if isLeapYear y then 29 else 28)) :=
  ⟨by decide, by decide, by decide, by decide, by decide,
   C3_discovery_scan
     (fun e => if e = discoveryEndpoint "2024-01-01" "2024-01-31"
       then ["2024-01-15", "2024-01-20"] else []) 2024 2 2023 11
     (by decide) (by decide) (by decide) (by decide) (by decide)⟩

/-!
## Task Decomposer: `fetch_days_concurrent`
(src/yazio_exporter/export_days.py, lines 159-213)

`fetchK kind date` abstracts `fetch_functions[kind](client, date)` (the
per-kind HTTP fetch); the registry of known kind names is the concrete
key list of the `fetch_functions` dict. The nested result dict holds, at
`results[d][dtype]`, either the fetched value (`Sum.inr`) or the
captured per-task exception (`Sum.inl`).
-/

/-- The keys of the `fetch_functions` registry, in dict order. -/
def fetch_functions_keys : List String :=
  ["consumed", "goals", "exercises", "water", "daily_summary", "summary"]

/-- `f"Unknown data type: {dtype}. Must be one of {list(fetch_functions.keys())}"`. -/
def unknownTypeMessage (dtype : String) : String :=
  "Unknown data type: " ++ dtype ++
    ". Must be one of [\x27consumed\x27, \x27goals\x27, \x27exercises\x27, \x27water\x27, \x27daily_summary\x27, \x27summary\x27]"

/-- `results[d][dtype] = v` on the nested dict. -/
def updateAt {X : Type} (m : List (String × List (String × X))) (d k : String) (v : X) :
    List (String × List (String × X)) :=
  m.map (fun q => if q.1 = d then (q.1, dictInsert q.2 k v) else q)

/-- `fetch_days_concurrent(client, dates, data_types)`: validate the
requested kinds against the registry, dispatch the `dates × data_types`
cross-product through `fetch_concurrent`, and regroup by date, storing
the captured error object for failed pairs. -/
def fetch_days_concurrent {E V : Type} (fetchK : String → String → Except E V)
    (dates : List String) (data_types : List String) :
    Except String (List (String × List (String × (E ⊕ V)))) :=
  match data_types.find? (fun dtype => !(fetch_functions_keys.contains dtype)) with
  | some dtype => .error (unknownTypeMessage dtype)
  | none =>
    let init : List (String × List (String × (E ⊕ V))) := dates.map (fun d => (d, []))
    let tasks : List (String × String) :=
      (dates.map (fun d => data_types.map (fun t => (d, t)))).flatten
    let fetched := fetch_concurrent tasks (fun t => fetchK t.2 t.1)
    let withOk := fetched.1.foldl
      (fun acc p => updateAt acc p.1.1 p.1.2 (Sum.inr p.2)) init
    let withErr := fetched.2.foldl
      (fun acc p => updateAt acc p.1.1 p.1.2 (Sum.inl p.2)) withOk
    .ok withErr

theorem dictFind_updateAt_self {X : Type} (m : List (String × List (String × X)))
    (d k : String) (v : X) :
    dictFind d (updateAt m d k v) = (dictFind d m).map (fun inner => dictInsert inner k v) := by
  induction m with
  | nil => rfl
  | cons q rest ih =>
    by_cases hq : q.1 = d
    · simp [updateAt, dictFind, hq]
    · simpa [updateAt, dictFind, hq] using ih

theorem dictFind_updateAt_other {X : Type} (m : List (String × List (String × X)))
    {d d2 : String} (k : String) (v : X) (h : d2 ≠ d) :
    dictFind d2 (updateAt m d k v) = dictFind d2 m := by
  induction m with
  | nil => rfl
  | cons q rest ih =>
    have hmap : updateAt (q :: rest) d k v
        = (if q.1 = d then (q.1, dictInsert q.2 k v) else q) :: updateAt rest d k v := by
      simp [updateAt]
    rw [hmap]
    by_cases hq : q.1 = d
    · rw [if_pos hq]
      have hq2 : ¬ q.1 = d2 := fun hh => h (hh ▸ hq)
      rw [show dictFind d2 ((q.1, dictInsert q.2 k v) :: updateAt rest d k v)
            = if q.1 = d2 then some (dictInsert q.2 k v)
              else dictFind d2 (updateAt rest d k v) from rfl,
          if_neg hq2, ih,
          show dictFind d2 (q :: rest)
            = if q.1 = d2 then some q.2 else dictFind d2 rest from rfl,
          if_neg hq2]
    · rw [if_neg hq,
          show dictFind d2 (q :: updateAt rest d k v)
            = if q.1 = d2 then some q.2 else dictFind d2 (updateAt rest d k v) from rfl,
          show dictFind d2 (q :: rest)
            = if q.1 = d2 then some q.2 else dictFind d2 rest from rfl]
      by_cases hq2 : q.1 = d2
      · rw [if_pos hq2, if_pos hq2]
      · rw [if_neg hq2, if_neg hq2, ih]

theorem updateAt_keys {X : Type} (m : List (String × List (String × X)))
    (d k : String) (v : X) : (updateAt m d k v).map Prod.fst = m.map Prod.fst := by
  rw [updateAt, List.map_map]
  refine List.map_congr_left ?_
  intro q _
  by_cases hq : q.1 = d <;> simp [hq]

theorem foldl_updateAt_keys {X P : Type} (keyf kf : P → String) (vf : P → X) :
    ∀ (entries : List P) (m : List (String × List (String × X))),
    ((entries.foldl (fun acc p => updateAt acc (keyf p) (kf p) (vf p)) m).map Prod.fst)
      = m.map Prod.fst
  | [], m => rfl
  | p :: rest, m => by
    rw [List.foldl_cons, foldl_updateAt_keys keyf kf vf rest _, updateAt_keys]

theorem dictFind_foldl_updateAt {X P : Type} (keyf kf : P → String) (vf : P → X) :
    ∀ (entries : List P) (m : List (String × List (String × X)))
      (d : String) (inner : List (String × X)),
    dictFind d m = some inner →
    dictFind d (entries.foldl (fun acc p => updateAt acc (keyf p) (kf p) (vf p)) m)
      = some ((entries.filter (fun p => keyf p = d)).foldl
          (fun acc p => dictInsert acc (kf p) (vf p)) inner)
  | [], m, d, inner, h => by simpa using h
  | p :: rest, m, d, inner, h => by
    rw [List.foldl_cons]
    by_cases hp : keyf p = d
    · have hstep : dictFind d (updateAt m (keyf p) (kf p) (vf p))
          = some (dictInsert inner (kf p) (vf p)) := by
        rw [hp, dictFind_updateAt_self, h, Option.map_some']
      rw [dictFind_foldl_updateAt keyf kf vf rest _ d _ hstep]
      congr 1
      rw [List.filter_cons_of_pos (by simpa using hp), List.foldl_cons]
    · have hstep : dictFind d (updateAt m (keyf p) (kf p) (vf p)) = some inner := by
        rw [dictFind_updateAt_other _ _ _ (fun hh => hp hh.symm), h]
      rw [dictFind_foldl_updateAt keyf kf vf rest _ d _ hstep]
      congr 1
      rw [List.filter_cons_of_neg (by simpa using hp)]

theorem dictFind_foldl_dictInsert_not_mem {X P : Type} (kf : P → String) (vf : P → X) :
    ∀ (entries : List P) (acc : List (String × X)) (k : String),
    (∀ p ∈ entries, kf p ≠ k) →
    dictFind k (entries.foldl (fun acc p => dictInsert acc (kf p) (vf p)) acc)
      = dictFind k acc
  | [], acc, k, _ => rfl
  | p :: rest, acc, k, h => by
    rw [List.foldl_cons,
        dictFind_foldl_dictInsert_not_mem kf vf rest _ k (fun q hq => h q (by simp [hq])),
        dictFind_dictInsert_ne _ _ (fun hh => h p (by simp) hh.symm)]

theorem dictFind_foldl_dictInsert_single {X P : Type} (kf : P → String) (vf : P → X) :
    ∀ (entries : List P) (acc : List (String × X)) (k : String) (p0 : P),
    entries.filter (fun p => kf p = k) = [p0] →
    dictFind k (entries.foldl (fun acc p => dictInsert acc (kf p) (vf p)) acc)
      = some (vf p0)
  | [], acc, k, p0, h => by simp at h
  | p :: rest, acc, k, p0, h => by
    by_cases hp : kf p = k
    · rw [List.filter_cons_of_pos (by simpa using hp), List.cons.injEq] at h
      obtain ⟨hpp0, hrest⟩ := h
      have hnone : ∀ q ∈ rest, kf q ≠ k := by
        intro q hq hqk
        have : q ∈ rest.filter (fun p => kf p = k) := List.mem_filter.mpr ⟨hq, by simpa using hqk⟩
        rw [hrest] at this
        simp at this
      rw [List.foldl_cons, dictFind_foldl_dictInsert_not_mem kf vf rest _ k hnone,
          ← hp, dictFind_dictInsert_self, hpp0]
    · rw [List.filter_cons_of_neg (by simpa using hp)] at h
      rw [List.foldl_cons]
      exact dictFind_foldl_dictInsert_single kf vf rest _ k p0 h

theorem mem_okEntries {items : List α} {fetch_fn : α → Except E β} {p : α × β} :
    p ∈ okEntries items fetch_fn ↔ p.1 ∈ items ∧ fetch_fn p.1 = Except.ok p.2 := by
  constructor
  · intro h
    obtain ⟨a, ha, hfa⟩ := List.mem_filterMap.mp h
    cases hf : fetch_fn a with
    | ok v =>
      rw [hf] at hfa
      simp only [Option.some.injEq] at hfa
      cases hfa
      exact ⟨ha, hf⟩
    | error e =>
      rw [hf] at hfa
      simp at hfa
  · rintro ⟨hi, hf⟩
    exact List.mem_filterMap.mpr ⟨p.1, hi, by rw [hf]⟩

theorem mem_errEntries {items : List α} {fetch_fn : α → Except E β} {p : α × E} :
    p ∈ errEntries items fetch_fn ↔ p.1 ∈ items ∧ fetch_fn p.1 = Except.error p.2 := by
  constructor
  · intro h
    obtain ⟨a, ha, hfa⟩ := List.mem_filterMap.mp h
    cases hf : fetch_fn a with
    | ok v =>
      rw [hf] at hfa
      simp at hfa
    | error e =>
      rw [hf] at hfa
      simp only [Option.some.injEq] at hfa
      cases hfa
      exact ⟨ha, hf⟩
  · rintro ⟨hi, hf⟩
    exact List.mem_filterMap.mpr ⟨p.1, hi, by rw [hf]⟩

theorem okEntries_keys_nodup [DecidableEq α] {items : List α} (fetch_fn : α → Except E β)
    (hnd : items.Nodup) : ((okEntries items fetch_fn).map Prod.fst).Nodup := by
  rw [okEntries_keys]
  exact hnd.filter _

theorem errEntries_keys_nodup [DecidableEq α] {items : List α} (fetch_fn : α → Except E β)
    (hnd : items.Nodup) : ((errEntries items fetch_fn).map Prod.fst).Nodup := by
  rw [errEntries_keys]
  exact hnd.filter _

theorem filter_key_singleton [DecidableEq α] {m : List (α × β)} {k : α} {v : β}
    (hnd : (m.map Prod.fst).Nodup) (hm : (k, v) ∈ m) :
    m.filter (fun p => p.1 = k) = [(k, v)] := by
  induction m with
  | nil => cases hm
  | cons q rest ih =>
    rw [List.map_cons, List.nodup_cons] at hnd
    by_cases hq : q.1 = k
    · have hkrest : rest.filter (fun p => p.1 = k) = [] := by
        rw [List.filter_eq_nil_iff]
        intro p hp hpk
        exact hnd.1 (hq ▸ (by simpa using hpk : p.1 = k) ▸ List.mem_map_of_mem Prod.fst hp)
      rw [List.filter_cons_of_pos (by simpa using hq), hkrest]
      rcases List.mem_cons.mp hm with hh | hh
      · rw [← hh]
      · exact absurd (by simpa using List.mem_map_of_mem Prod.fst hh)
          (fun hmem => hnd.1 (hq ▸ hmem))
    · rw [List.filter_cons_of_neg (by simpa using hq)]
      rcases List.mem_cons.mp hm with hh | hh
      · exact absurd (congrArg Prod.fst hh.symm) hq
      · exact ih hnd.2 hh

theorem filter_filter_key {γ : Type} (entries : List ((String × String) × γ)) (d k : String) :
    (entries.filter (fun p => p.1.1 = d)).filter (fun p => p.1.2 = k)
      = entries.filter (fun p => p.1 = (d, k)) := by
  rw [List.filter_filter]
  refine List.filter_congr ?_
  intro p _
  by_cases h1 : p.1.1 = d <;> by_cases h2 : p.1.2 = k <;>
    simp [h1, h2, Prod.ext_iff]

theorem dictFind_listInit {X : Type} (dates : List String) (d : String) (hd : d ∈ dates) :
    dictFind d (dates.map (fun d2 => (d2, ([] : List (String × X))))) = some [] := by
  induction dates with
  | nil => cases hd
  | cons d0 rest ih =>
    by_cases h0 : d0 = d
    · simp [dictFind, h0]
    · rcases List.mem_cons.mp hd with h | h
      · exact absurd h.symm h0
      · simpa [dictFind, h0] using ih h

/-- The value stored for a completed `(date, kind)` task: the fetched
value on success, the captured error object on failure. -/
def taskResult {E V : Type} : Except E V → E ⊕ V
  | .ok v => Sum.inr v
  | .error e => Sum.inl e

/-- C7: requesting an unknown kind fails the whole call with the
descriptive registry error before any fetch runs (the result does not
depend on the fetch function at all); with all kinds known, the result
maps every input date to an inner map binding every requested kind to
the fetched value (`Sum.inr`) or the captured error (`Sum.inl`). -/
theorem C7_decomposer {E V : Type} (fetchK : String → String → Except E V)
    (dates data_types : List String) (hd : dates.Nodup) (ht : data_types.Nodup) :
    ((∃ dt ∈ data_types, dt ∉ fetch_functions_keys) →
      ∃ dt ∈ data_types, dt ∉ fetch_functions_keys
        ∧ ∀ g : String → String → Except E V,
            fetch_days_concurrent g dates data_types
              = Except.error (unknownTypeMessage dt))
    ∧ ((∀ dt ∈ data_types, dt ∈ fetch_functions_keys) →
      ∃ r, fetch_days_concurrent fetchK dates data_types = Except.ok r
        ∧ r.map Prod.fst = dates
        ∧ ∀ d ∈ dates, ∃ inner, dictFind d r = some inner
            ∧ ∀ k ∈ data_types,
                dictFind k inner = some (match fetchK k d with
                  | Except.ok v => Sum.inr v
                  | Except.error e => Sum.inl e)) := by
  constructor
  · rintro ⟨dt0, hdt0, hdt0n⟩
    have hsome : (data_types.find? (fun dtype => !(fetch_functions_keys.contains dtype))).isSome := by
      rw [List.find?_isSome]
      exact ⟨dt0, hdt0, by simpa using hdt0n⟩
    obtain ⟨dt, hfind⟩ := Option.isSome_iff_exists.mp hsome
    refine ⟨dt, List.mem_of_find?_eq_some hfind, ?_, ?_⟩
    · simpa using List.find?_some hfind
    · intro g
      simp only [fetch_days_concurrent, hfind]
  · intro hall
    have hfind : data_types.find? (fun dtype => !(fetch_functions_keys.contains dtype)) = none := by
      rw [List.find?_eq_none]
      intro x hx
      simp [hall x hx]
    have hprod : dates ×ˢ data_types
        = (dates.map (fun d => data_types.map (fun t => (d, t)))).flatten := by
      show dates.product data_types = _
      rw [List.product, List.flatMap]
    have htasks_nodup : ((dates.map (fun d => data_types.map (fun t => (d, t)))).flatten).Nodup := by
      rw [← hprod]
      exact List.Nodup.product hd ht
    have hfc := fetch_concurrent_eq
      ((dates.map (fun d => data_types.map (fun t => (d, t)))).flatten)
      (fun t : String × String => fetchK t.2 t.1) htasks_nodup
    refine ⟨(errEntries ((dates.map (fun d => data_types.map (fun t => (d, t)))).flatten)
        (fun t : String × String => fetchK t.2 t.1)).foldl
          (fun acc p => updateAt acc p.1.1 p.1.2 (Sum.inl p.2))
          ((okEntries ((dates.map (fun d => data_types.map (fun t => (d, t)))).flatten)
            (fun t : String × String => fetchK t.2 t.1)).foldl
              (fun acc p => updateAt acc p.1.1 p.1.2 (Sum.inr p.2))
              (dates.map (fun d => (d, ([] : List (String × (E ⊕ V))))))), ?_, ?_, ?_⟩
    · simp only [fetch_days_concurrent, hfind, hfc]
    · have h1 := foldl_updateAt_keys (fun p : (String × String) × E => p.1.1)
        (fun p => p.1.2) (fun p => Sum.inl p.2)
        (errEntries ((dates.map (fun d => data_types.map (fun t => (d, t)))).flatten)
          (fun t : String × String => fetchK t.2 t.1))
        ((okEntries ((dates.map (fun d => data_types.map (fun t => (d, t)))).flatten)
          (fun t : String × String => fetchK t.2 t.1)).foldl
            (fun acc p => updateAt acc p.1.1 p.1.2 (Sum.inr p.2))
            (dates.map (fun d => (d, ([] : List (String × (E ⊕ V)))))))
      have h2 := foldl_updateAt_keys (fun p : (String × String) × V => p.1.1)
        (fun p => p.1.2) (fun p => Sum.inr p.2)
        (okEntries ((dates.map (fun d => data_types.map (fun t => (d, t)))).flatten)
          (fun t : String × String => fetchK t.2 t.1))
        (dates.map (fun d => (d, ([] : List (String × (E ⊕ V))))))
      rw [h1, h2, List.map_map]
      exact List.map_id dates
    · intro d hdmem
      have hinit : dictFind d (dates.map (fun d2 => (d2, ([] : List (String × (E ⊕ V)))))) = some [] :=
        dictFind_listInit dates d hdmem
      have hOk := dictFind_foldl_updateAt (fun p : (String × String) × V => p.1.1)
        (fun p => p.1.2) (fun p => Sum.inr p.2)
        (okEntries ((dates.map (fun d => data_types.map (fun t => (d, t)))).flatten)
          (fun t : String × String => fetchK t.2 t.1))
        (dates.map (fun d2 => (d2, ([] : List (String × (E ⊕ V)))))) d [] hinit
      have hErr := dictFind_foldl_updateAt (fun p : (String × String) × E => p.1.1)
        (fun p => p.1.2) (fun p => Sum.inl p.2)
        (errEntries ((dates.map (fun d => data_types.map (fun t => (d, t)))).flatten)
          (fun t : String × String => fetchK t.2 t.1))
        ((okEntries ((dates.map (fun d => data_types.map (fun t => (d, t)))).flatten)
          (fun t : String × String => fetchK t.2 t.1)).foldl
            (fun acc p => updateAt acc p.1.1 p.1.2 (Sum.inr p.2))
            (dates.map (fun d2 => (d2, ([] : List (String × (E ⊕ V))))))) d _ hOk
      refine ⟨_, hErr, ?_⟩
      intro k hkmem
      have hdk_tasks : (d, k) ∈ (dates.map (fun d => data_types.map (fun t => (d, t)))).flatten := by
        rw [← hprod]
        exact List.pair_mem_product.mpr ⟨hdmem, hkmem⟩
      cases hfk : fetchK k d with
      | ok v =>
        have hmem_ok : ((d, k), v) ∈ okEntries
            ((dates.map (fun d => data_types.map (fun t => (d, t)))).flatten)
            (fun t : String × String => fetchK t.2 t.1) :=
          mem_okEntries.mpr ⟨hdk_tasks, hfk⟩
        have hnone : ∀ p ∈ (errEntries ((dates.map (fun d => data_types.map (fun t => (d, t)))).flatten)
            (fun t : String × String => fetchK t.2 t.1)).filter (fun p => p.1.1 = d),
            p.1.2 ≠ k := by
          rintro ⟨⟨pd, pk⟩, pe⟩ hp hpk
          have hpd : pd = d := by simpa using (List.mem_filter.mp hp).2
          have hpk2 : pk = k := by simpa using hpk
          have hperr := (mem_errEntries.mp (List.mem_filter.mp hp).1).2
          have h2 : fetchK pk pd = Except.error pe := hperr
          rw [hpd, hpk2, hfk] at h2
          cases h2
        have hfinal := dictFind_foldl_dictInsert_not_mem
          (fun p : (String × String) × E => p.1.2) (fun p => Sum.inl p.2)
          ((errEntries ((dates.map (fun d => data_types.map (fun t => (d, t)))).flatten)
            (fun t : String × String => fetchK t.2 t.1)).filter (fun p => p.1.1 = d))
          (((okEntries ((dates.map (fun d => data_types.map (fun t => (d, t)))).flatten)
            (fun t : String × String => fetchK t.2 t.1)).filter (fun p => p.1.1 = d)).foldl
              (fun acc p => dictInsert acc p.1.2 (Sum.inr p.2))
              ([] : List (String × (E ⊕ V))))
          k hnone
        have hsingle : ((okEntries ((dates.map (fun d => data_types.map (fun t => (d, t)))).flatten)
            (fun t : String × String => fetchK t.2 t.1)).filter (fun p => p.1.1 = d)).filter
              (fun p => p.1.2 = k) = [((d, k), v)] := by
          rw [filter_filter_key]
          exact filter_key_singleton
            (okEntries_keys_nodup (fun t : String × String => fetchK t.2 t.1) htasks_nodup)
            hmem_ok
        have hinner := dictFind_foldl_dictInsert_single
          (fun p : (String × String) × V => p.1.2) (fun p => Sum.inr p.2)
          ((okEntries ((dates.map (fun d => data_types.map (fun t => (d, t)))).flatten)
            (fun t : String × String => fetchK t.2 t.1)).filter (fun p => p.1.1 = d))
          ([] : List (String × (E ⊕ V))) k ((d, k), v) hsingle
        exact hfinal.trans hinner
      | error e =>
        have hmem_err : ((d, k), e) ∈ errEntries
            ((dates.map (fun d => data_types.map (fun t => (d, t)))).flatten)
            (fun t : String × String => fetchK t.2 t.1) :=
          mem_errEntries.mpr ⟨hdk_tasks, hfk⟩
        have hsingle : ((errEntries ((dates.map (fun d => data_types.map (fun t => (d, t)))).flatten)
            (fun t : String × String => fetchK t.2 t.1)).filter (fun p => p.1.1 = d)).filter
              (fun p => p.1.2 = k) = [((d, k), e)] := by
          rw [filter_filter_key]
          exact filter_key_singleton
            (errEntries_keys_nodup (fun t : String × String => fetchK t.2 t.1) htasks_nodup)
            hmem_err
        exact dictFind_foldl_dictInsert_single
          (fun p : (String × String) × E => p.1.2) (fun p => Sum.inl p.2)
          ((errEntries ((dates.map (fun d => data_types.map (fun t => (d, t)))).flatten)
            (fun t : String × String => fetchK t.2 t.1)).filter (fun p => p.1.1 = d))
          _ k ((d, k), e) hsingle

theorem C7_decomposer_witness :
    (["2024-01-01", "2024-01-02"] : List String).Nodup
    ∧ (["consumed", "goals"] : List String).Nodup
    ∧ (((∃ dt ∈ (["consumed", "goals"] : List String), dt ∉ fetch_functions_keys) →
        ∃ dt ∈ (["consumed", "goals"] : List String), dt ∉ fetch_functions_keys
          ∧ ∀ g : String → String → Except Nat Nat,
              fetch_days_concurrent g ["2024-01-01", "2024-01-02"] ["consumed", "goals"]
                = Except.error (unknownTypeMessage dt))
      ∧ ((∀ dt ∈ (["consumed", "goals"] : List String), dt ∈ fetch_functions_keys) →
        ∃ r, fetch_days_concurrent
              (fun k _ => if k = "goals" then (Except.error 5 : Except Nat Nat) else Except.ok 1)
              ["2024-01-01", "2024-01-02"] ["consumed", "goals"] = Except.ok r
          ∧ r.map Prod.fst = ["2024-01-01", "2024-01-02"]
          ∧ ∀ d ∈ (["2024-01-01", "2024-01-02"] : List String),
              ∃ inner, dictFind d r = some inner
              ∧ ∀ k ∈ (["consumed", "goals"] : List String),
                  dictFind k inner
                    = some (taskResult (if k = "goals"
                        then (Except.error 5 : Except Nat Nat) else Except.ok 1)))) :=
  ⟨by decide, by decide,
   C7_decomposer
     (fun k _ => if k = "goals" then (Except.error 5 : Except Nat Nat) else Except.ok 1)
     ["2024-01-01", "2024-01-02"] ["consumed", "goals"] (by decide) (by decide)⟩

/-!
## Nutrient batch export: `fetch_multiple`
(src/yazio_exporter/export_nutrients.py, lines 44-75)

    successes, errors = fetch_concurrent(nutrients, ...)
    results = dict(successes)
    for nutrient in errors:
        results[nutrient] = {}
    return results

`fetchN n` abstracts `fetch_nutrient(client, n, start, end)`, whose value
is a date → value dict (`List (String × W)` here).
-/

/-- `fetch_multiple(client, nutrients, start, end)`: successes keep their
data, every failed nutrient is re-bound to the empty dict. -/
def fetch_multiple {E W : Type} (fetchN : String → Except E (List (String × W)))
    (nutrients : List String) : List (String × List (String × W)) :=
  let fetched := fetch_concurrent nutrients fetchN
  fetched.2.foldl (fun acc p => dictInsert acc p.1 []) fetched.1

theorem foldl_dictInsert_keys_disjoint {X P : Type} (kf : P → String) (vf : P → X) :
    ∀ (entries : List P) (acc : List (String × X)),
    (∀ p ∈ entries, kf p ∉ acc.map Prod.fst) →
    (entries.map kf).Nodup →
    ((entries.foldl (fun acc p => dictInsert acc (kf p) (vf p)) acc).map Prod.fst)
      = acc.map Prod.fst ++ entries.map kf
  | [], acc, _, _ => by simp
  | p :: rest, acc, hdisj, hnd => by
    rw [List.foldl_cons, dictInsert_of_not_mem (vf p) (hdisj p (by simp))]
    rw [List.map_cons, List.nodup_cons] at hnd
    have hdisj2 : ∀ q ∈ rest, kf q ∉ (acc ++ [(kf p, vf p)]).map Prod.fst := by
      intro q hq
      simp only [List.map_append, List.mem_append, List.map_cons, List.map_nil,
        List.mem_singleton, not_or]
      refine ⟨hdisj q (by simp [hq]), fun hqp => hnd.1 (hqp ▸ List.mem_map_of_mem kf hq)⟩
    rw [foldl_dictInsert_keys_disjoint kf vf rest _ hdisj2 hnd.2]
    simp

/-- C10: for distinct nutrient ids, the key set of the returned map is
exactly the input list; a nutrient whose fetch raised is mapped to the
empty dict (not the error object), a successful nutrient to its data —
so a failed nutrient is indistinguishable from one with no data. -/
theorem C10_nutrient_merge {E W : Type} (fetchN : String → Except E (List (String × W)))
    (nutrients : List String) (hnd : nutrients.Nodup) :
    List.Perm ((fetch_multiple fetchN nutrients).map Prod.fst) nutrients
    ∧ (∀ n ∈ nutrients, ∀ e : E, fetchN n = Except.error e →
        dictFind n (fetch_multiple fetchN nutrients) = some [])
    ∧ (∀ n ∈ nutrients, ∀ v : List (String × W), fetchN n = Except.ok v →
        dictFind n (fetch_multiple fetchN nutrients) = some v)
    ∧ (∀ n, n ∉ nutrients → dictFind n (fetch_multiple fetchN nutrients) = none) := by
  have hfc := fetch_concurrent_eq nutrients fetchN hnd
  have hfm : fetch_multiple fetchN nutrients
      = (errEntries nutrients fetchN).foldl
          (fun acc p => dictInsert acc p.1 ([] : List (String × W)))
          (okEntries nutrients fetchN) := by
    simp only [fetch_multiple, hfc]
  have hdisj : ∀ p ∈ errEntries nutrients fetchN,
      p.1 ∉ (okEntries nutrients fetchN).map Prod.fst := by
    intro p hp hmem
    have h1 := (mem_errEntries.mp hp).2
    rw [okEntries_keys] at hmem
    have h2 := (List.mem_filter.mp hmem).2
    rw [h1] at h2
    simp [exOk] at h2
  refine ⟨?_, ?_, ?_, ?_⟩
  · rw [hfm]
    have hkeys := foldl_dictInsert_keys_disjoint
      (fun p : String × E => p.1) (fun _ => ([] : List (String × W)))
      (errEntries nutrients fetchN) (okEntries nutrients fetchN)
      hdisj (errEntries_keys_nodup fetchN hnd)
    rw [hkeys, okEntries_keys, errEntries_keys]
    exact List.filter_append_perm _ nutrients
  · intro n hn e he
    rw [hfm]
    have hmem : (n, e) ∈ errEntries nutrients fetchN := mem_errEntries.mpr ⟨hn, he⟩
    have hsingle : (errEntries nutrients fetchN).filter (fun p => p.1 = n) = [(n, e)] :=
      filter_key_singleton (errEntries_keys_nodup fetchN hnd) hmem
    exact dictFind_foldl_dictInsert_single (fun p : String × E => p.1)
      (fun _ => ([] : List (String × W))) (errEntries nutrients fetchN)
      (okEntries nutrients fetchN) n (n, e) hsingle
  · intro n hn v hv
    rw [hfm]
    have hnone : ∀ p ∈ errEntries nutrients fetchN, p.1 ≠ n := by
      intro p hp hpn
      have h1 := (mem_errEntries.mp hp).2
      rw [hpn, hv] at h1
      cases h1
    have hskip := dictFind_foldl_dictInsert_not_mem (fun p : String × E => p.1)
      (fun _ => ([] : List (String × W))) (errEntries nutrients fetchN)
      (okEntries nutrients fetchN) n hnone
    exact hskip.trans (dictFind_okEntries_of_ok hnd hn hv)
  · intro n hn
    rw [hfm]
    have hnone : ∀ p ∈ errEntries nutrients fetchN, p.1 ≠ n := by
      intro p hp hpn
      exact hn (hpn ▸ (mem_errEntries.mp hp).1)
    have hskip := dictFind_foldl_dictInsert_not_mem (fun p : String × E => p.1)
      (fun _ => ([] : List (String × W))) (errEntries nutrients fetchN)
      (okEntries nutrients fetchN) n hnone
    refine hskip.trans (dictFind_eq_none_of_not_mem ?_)
    rw [okEntries_keys]
    intro hmem
    exact hn (List.mem_filter.mp hmem).1

theorem C10_nutrient_merge_witness :
    (["vitamin.a", "mineral.iron"] : List String).Nodup
    ∧ (List.Perm ((fetch_multiple
          (fun n => if n = "vitamin.a"
            then (Except.ok [("2024-01-01", 1)] : Except Nat (List (String × Nat)))
            else Except.error 3)
          ["vitamin.a", "mineral.iron"]).map Prod.fst) ["vitamin.a", "mineral.iron"]
      ∧ (∀ n ∈ (["vitamin.a", "mineral.iron"] : List String), ∀ e : Nat,
          (fun n => if n = "vitamin.a"
            then (Except.ok [("2024-01-01", 1)] : Except Nat (List (String × Nat)))
            else Except.error 3) n = Except.error e →
          dictFind n (fetch_multiple
            (fun n => if n = "vitamin.a"
              then (Except.ok [("2024-01-01", 1)] : Except Nat (List (String × Nat)))
              else Except.error 3) ["vitamin.a", "mineral.iron"]) = some [])
      ∧ (∀ n ∈ (["vitamin.a", "mineral.iron"] : List String), ∀ v : List (String × Nat),
          (fun n => if n = "vitamin.a"
            then (Except.ok [("2024-01-01", 1)] : Except Nat (List (String × Nat)))
            else Except.error 3) n = Except.ok v →
          dictFind n (fetch_multiple
            (fun n => if n = "vitamin.a"
              then (Except.ok [("2024-01-01", 1)] : Except Nat (List (String × Nat)))
              else Except.error 3) ["vitamin.a", "mineral.iron"]) = some v)
      ∧ (∀ n, n ∉ (["vitamin.a", "mineral.iron"] : List String) →
          dictFind n (fetch_multiple
            (fun n => if n = "vitamin.a"
              then (Except.ok [("2024-01-01", 1)] : Except Nat (List (String × Nat)))
              else Except.error 3) ["vitamin.a", "mineral.iron"]) = none)) :=
  ⟨by decide,
   C10_nutrient_merge
     (fun n => if n = "vitamin.a"
       then (Except.ok [("2024-01-01", 1)] : Except Nat (List (String × Nat)))
       else Except.error 3)
     ["vitamin.a", "mineral.iron"] (by decide)⟩

end YazioExporter
